import Mathlib

/-!
# Secret Santa backend (`santa-backend/main.go`)

A shallow embedding of the room registry, the connection handler, the room
event loop and the draw of `main.go`, with the properties of the
specification stated over it.

Conventions of the embedding.

* A `*Client` is identified with the value of its fields: `Conn` is the
  identity of the accepted connection, so two clients are the same pointer
  exactly when they are the same value.  The back pointer `Client.Room` is
  written once and never read; it is left out.
* `Room.Clients` is a Go `map[*Client]bool` whose values are always `true`:
  a finite set of clients.  A `range` over it visits the keys in an order the
  language leaves open, so every function that ranges over the map receives
  the order of that visit as an argument, and `Ranges order s` says that
  `order` is such a visit of `s`.
* The registry `rooms` is a `map[string]*Room`: a function from identifiers
  to optional rooms.  A room is mutated in place through its pointer; in the
  embedding the entry of the registry that holds the room is replaced.
* Everything the code writes to a socket, to a channel or to the HTTP
  response is collected, in order, in a list of `Effect`s.
-/

namespace SecretSanta

/-! ## Data model -/

/-- Client represents a single user connection. -/
structure Client where
  Conn : Nat
  Name : String
  Avatar : String
deriving DecidableEq

/-- Room holds the state of a Secret Santa room (the mutex and the two
channels carry no data of their own). -/
structure Room where
  ID : String
  Clients : Finset Client
  Host : Option Client
  IsStarted : Bool

/-- Two rooms are equal when their four fields are; the fields are compared one by one. -/
instance : DecidableEq Room := fun a b =>
  decidable_of_iff
    (a.ID = b.ID ∧ a.Clients = b.Clients ∧ a.Host = b.Host ∧ a.IsStarted = b.IsStarted)
    (by cases a; cases b; simp)

/-- Participant is the entry of the user list sent to the frontend. -/
structure Participant where
  Name : String
  Avatar : String
  IsHost : Bool
deriving DecidableEq

/-- The `any` payload of a message: an error text or receiver name, or a
participant list. -/
inductive Payload where
  | text (s : String)
  | participants (l : List Participant)
deriving DecidableEq

/-- Message is the JSON structure of the communication (`Typ` is the field
`Type` of the source). -/
structure Message where
  Typ : String
  Payload : Payload
deriving DecidableEq

/-- What the server emits. -/
inductive Effect where
  -- http.Error(w, text, code)
  | httpError (text : String) (code : Nat)
  -- c.Conn.WriteJSON(m): a private message to one client
  | writeJSON (dest : Client) (m : Message)
  -- conn.Close()
  | close (conn : Nat)
  -- r.Broadcast <- data: a message queued on the broadcast channel of the room
  | broadcast (room : String) (m : Message)
  -- client.Conn.WriteMessage(...): the event loop delivering a broadcast
  | writeMessage (dest : Client) (m : Message)
deriving DecidableEq

/-- The registry `rooms : map[string]*Room`. -/
abbrev Registry := String → Option Room

/-- The registry at start-up: `make(map[string]*Room)`. -/
def emptyRegistry : Registry := fun _ => none

/-- Assignment `rooms[id] = room`. -/
def Registry.set (rooms : Registry) (id : String) (room : Room) : Registry :=
  fun k => if k = id then some room else rooms k

/-- Deletion `delete(rooms, id)`. -/
def Registry.delete (rooms : Registry) (id : String) : Registry :=
  fun k => if k = id then none else rooms k

/-- A visit of the keys of a map by `range`: every key once, in some order. -/
def Ranges (order : List Client) (s : Finset Client) : Prop :=
  order.Nodup ∧ ∀ c, c ∈ order ↔ c ∈ s

instance (order : List Client) (s : Finset Client) : Decidable (Ranges order s) :=
  decidable_of_iff (order.Nodup ∧ order.toFinset = s) (by
    unfold Ranges
    constructor
    · rintro ⟨h, rfl⟩
      exact ⟨h, fun c => by simp⟩
    · rintro ⟨h, hm⟩
      exact ⟨h, by ext c; simp [hm]⟩)

/-! ## The draw -/

/-- The swap closure handed to `Shuffle`:
`clients[i], clients[j] = clients[j], clients[i]`. -/
def swap (clients : List Client) (i j : Nat) : List Client :=
  match clients[i]?, clients[j]? with
  | some a, some b => (clients.set i b).set j a
  | _, _ => clients

/-- The loop of `rand.Shuffle`: `for ; i > 0; i-- { j := Intn(i+1); swap(i, j) }`,
with `rnd i` the number drawn at index `i`. -/
def shuffleLoop (rnd : Nat → Nat) : Nat → List Client → List Client
  | 0, clients => clients
  | i + 1, clients => shuffleLoop rnd i (swap clients (i + 1) (rnd (i + 1) % (i + 2)))

/-- The call `rs.Shuffle(len(clients), swap)`: Fisher-Yates from the last index down to 1. -/
def shuffle (rnd : Nat → Nat) (clients : List Client) : List Client :=
  shuffleLoop rnd (clients.length - 1) clients

/-- The matching loop of `performDraw`: for every index `i` the pair
`(giver, receiver) = (clients[i], clients[(i+1) % len(clients)])`. -/
def assignMatches (clients : List Client) : List (Client × Client) :=
  (List.finRange clients.length).map fun i =>
    (clients.get i, clients.get ⟨(i.val + 1) % clients.length, Nat.mod_lt _ i.pos⟩)

/-- The private message of the draw: `Message{Type: "MATCH_RESULT", Payload: receiver.Name}`
written to the giver. -/
def resultMsg (p : Client × Client) : Effect :=
  .writeJSON p.1 { Typ := "MATCH_RESULT", Payload := .text p.2.Name }

/-- The function `performDraw`.  `order` is the visit of `r.Clients` that fills the slice,
`rnd` the random source of the shuffle. -/
def performDraw (r : Room) (order : List Client) (rnd : Nat → Nat) : Room × List Effect :=
  if r.Clients.card < 2 then
    (r, [])
  else
    let r1 := { r with IsStarted := true }
    let clients := shuffle rnd order
    (r1, (assignMatches clients).map resultMsg)

/-- The receiver a list of matches gives to `giver`, if `giver` occurs as a giver. -/
def receiverOf (pairs : List (Client × Client)) (giver : Client) : Option Client :=
  (pairs.find? fun p => p.1 = giver).map Prod.snd

/-- Following the giver to receiver mapping `k` times from `c`. -/
def follow (pairs : List (Client × Client)) : Nat → Client → Option Client
  | 0, c => some c
  | k + 1, c => (follow pairs k c).bind (receiverOf pairs)

/-! ## Rooms, the connection handler and the event loop -/

/-- The constructor `newRoom`: no clients, no host, not started. -/
def newRoom (id : String) : Room :=
  { ID := id, Clients := ∅, Host := none, IsStarted := false }

/-- The function `sendError`: an `ERROR` message written to the client. -/
def sendError (c : Client) (errorMsg : String) : Effect :=
  .writeJSON c { Typ := "ERROR", Payload := .text errorMsg }

/-- The participant list `broadcastUserList` builds while it ranges over `r.Clients`. -/
def participantList (r : Room) (order : List Client) : List Participant :=
  order.map fun client =>
    { Name := client.Name, IsHost := decide (some client = r.Host), Avatar := client.Avatar }

/-- The function `broadcastUserList`: the `UPDATE_PARTICIPANTS` message is queued on the
broadcast channel of the room. -/
def broadcastUserList (r : Room) (order : List Client) : List Effect :=
  [.broadcast r.ID { Typ := "UPDATE_PARTICIPANTS", Payload := .participants (participantList r order) }]

/-- The tail of the room logic of `handleWebSocket` (lines 132-139): the client is added
to the room and the new user list is broadcast. -/
def attach (rooms : Registry) (roomID : String) (room : Room) (client : Client)
    (order : List Client) : Registry × List Effect :=
  let room1 := { room with Clients := insert client room.Clients }
  (rooms.set roomID room1, broadcastUserList room1 order)

/-- The function `handleWebSocket` up to its read loop.  `upgrade` is what
`upgrader.Upgrade` returns: the new connection, or `none` for an error; `order` is the
visit of the clients made by the broadcast of the user list. -/
def handleWebSocket (rooms : Registry) (roomID name avatar action : String)
    (upgrade : Option Nat) (order : List Client) : Registry × List Effect :=
  if name = "" ∨ roomID = "" then
    (rooms, [.httpError "Missing name or room ID" 400])
  else
    match upgrade with
    | none => (rooms, [.httpError "Could not open WebSocket connection" 400])
    | some conn =>
      let client : Client := { Conn := conn, Name := name, Avatar := avatar }
      if action = "create" then
        match rooms roomID with
        | some _ => (rooms, [sendError client "Room already exists", .close conn])
        | none =>
          let room := { newRoom roomID with Host := some client }
          attach (rooms.set roomID room) roomID room client order
      else
        match rooms roomID with
        | none => (rooms, [sendError client "Room does not exist", .close conn])
        | some room =>
          if room.IsStarted then
            (rooms, [sendError client "Game already started", .close conn])
          else
            attach rooms roomID room client order

/-- One turn of the read loop of `handleWebSocket` for a message of type `msgType` read
from `client`.  The handler keeps the pointer to the room it attached the client to; here
that room is the one held at `roomID`. -/
def handleMessage (rooms : Registry) (roomID : String) (client : Client) (msgType : String)
    (order : List Client) (rnd : Nat → Nat) : Registry × List Effect :=
  match rooms roomID with
  | none => (rooms, [])
  | some room =>
    if msgType = "START_GAME" then
      if some client = room.Host then
        let res := performDraw room order rnd
        (rooms.set roomID res.1, res.2)
      else (rooms, [])
    else (rooms, [])

/-- The two requests the event loop of a room selects on. -/
inductive LoopRequest where
  | unregister (client : Client)
  | broadcast (message : Message)
deriving DecidableEq

/-- One turn of the event loop `Room.run` of the room `r` held at `key`.  `hostOrder` is
the visit of the clients that picks the new host, `listOrder` the visit made by the
broadcast of the user list or by the delivery of a message. -/
def Room.run (rooms : Registry) (key : String) (r : Room) (req : LoopRequest)
    (hostOrder listOrder : List Client) : Registry × List Effect :=
  match req with
  | .unregister client =>
    if client ∈ r.Clients then
      let r1 := { r with Clients := r.Clients.erase client }
      if some client = r.Host then
        let r2 := { r1 with Host := match hostOrder.head? with
                                    | some c => some c
                                    | none => r1.Host }
        (rooms.set key r2, broadcastUserList r2 listOrder)
      else if r1.Clients.card = 0 then
        ((rooms.set key r1).delete r1.ID, [])
      else
        (rooms.set key r1, broadcastUserList r1 listOrder)
    else
      (rooms, broadcastUserList r listOrder)
  | .broadcast message =>
    (rooms, listOrder.map fun client => .writeMessage client message)

/-! ## The server as a transition system -/

/-- What can happen to the server: a connection request, a message read from an attached
client, and a request taken by the event loop of a room. -/
inductive Event where
  | connect (roomID name avatar action : String) (upgrade : Option Nat) (order : List Client)
  | message (roomID : String) (client : Client) (msgType : String) (order : List Client)
      (rnd : Nat → Nat)
  | loop (roomID : String) (req : LoopRequest) (hostOrder listOrder : List Client)

/-- The effect of one event on the registry, with what the server emits. -/
def step (rooms : Registry) : Event → Registry × List Effect
  | .connect roomID name avatar action upgrade order =>
    handleWebSocket rooms roomID name avatar action upgrade order
  | .message roomID client msgType order rnd =>
    handleMessage rooms roomID client msgType order rnd
  | .loop roomID req hostOrder listOrder =>
    match rooms roomID with
    | none => (rooms, [])
    | some r => Room.run rooms roomID r req hostOrder listOrder

/-- The registry after a sequence of events. -/
def run (rooms : Registry) (events : List Event) : Registry :=
  events.foldl (fun s e => (step s e).1) rooms

/-- The client an effect is written to, for the effects that are written to one client. -/
def Effect.recipient : Effect → Option Client
  | .writeJSON c _ => some c
  | .writeMessage c _ => some c
  | _ => none

/-- The effects written to the client `p`, in order. -/
def sentTo (out : List Effect) (p : Client) : List Effect :=
  out.filter fun e => e.recipient = some p

/-- The `MATCH_RESULT` message naming `v`, written to `p`. -/
def matchResult (p v : Client) : Effect :=
  .writeJSON p { Typ := "MATCH_RESULT", Payload := .text v.Name }

/-- The connections handed out by the upgrades of a sequence of events. -/
def usedConns : List Event → List Nat
  | [] => []
  | .connect _ _ _ _ (some conn) _ :: es => conn :: usedConns es
  | _ :: es => usedConns es

/-- When an event can occur after the events `history` have led to the registry `rooms`.
An upgrade hands out a connection that was never handed out before; a message is read
from, and an unregister request is sent for, a client that is attached to the room; every
visit of a client map is a visit of the map as it is at that moment. -/
def Admissible (history : List Event) (rooms : Registry) : Event → Prop
  | .connect roomID name avatar action upgrade order =>
    (∀ conn ∈ upgrade, conn ∉ usedConns history) ∧
    (∀ r ∈ (handleWebSocket rooms roomID name avatar action upgrade order).1 roomID,
      Ranges order r.Clients)
  | .message roomID client _ order _ =>
    ∃ r ∈ rooms roomID, client ∈ r.Clients ∧ Ranges order r.Clients
  | .loop roomID (.unregister client) hostOrder listOrder =>
    ∃ r ∈ rooms roomID, client ∈ r.Clients ∧
      Ranges hostOrder (r.Clients.erase client) ∧ Ranges listOrder (r.Clients.erase client)
  | .loop roomID (.broadcast _) _ listOrder =>
    ∃ r ∈ rooms roomID, Ranges listOrder r.Clients

instance (history : List Event) (rooms : Registry) (e : Event) :
    Decidable (Admissible history rooms e) := by
  cases e with
  | connect roomID name avatar action upgrade order => unfold Admissible; infer_instance
  | message roomID client msgType order rnd => unfold Admissible; infer_instance
  | loop roomID req hostOrder listOrder =>
    cases req with
    | unregister client => unfold Admissible; infer_instance
    | broadcast m => unfold Admissible; infer_instance

/-- Every event of the sequence can occur when its turn comes. -/
def AdmissibleTrace (history : List Event) (rooms : Registry) : List Event → Prop
  | [] => True
  | e :: es => Admissible history rooms e ∧ AdmissibleTrace (history ++ [e]) (step rooms e).1 es

instance (history : List Event) (rooms : Registry) (events : List Event) :
    Decidable (AdmissibleTrace history rooms events) := by
  induction events generalizing history rooms with
  | nil => unfold AdmissibleTrace; infer_instance
  | cons e es ih => unfold AdmissibleTrace; infer_instance

/-- The registries the server can be in: those reached from the empty registry by a
sequence of events each of which can occur when its turn comes. -/
def Reachable (rooms : Registry) : Prop :=
  ∃ events, AdmissibleTrace [] emptyRegistry events ∧ run emptyRegistry events = rooms

/-- The identifier `id` is lost in the registry `rooms`: whatever events follow, the entry
of `id` stays what it is, every connection request on `id` leaves the registry as it is,
and a request that passed the parameter check and the upgrade is answered with the error
"Room already exists" when its action is create and "Game already started" otherwise,
and closed. -/
def Unusable (rooms : Registry) (id : String) : Prop :=
  ∀ events : List Event,
    (run rooms events) id = rooms id ∧
    (∀ name avatar action upgrade order,
      (handleWebSocket (run rooms events) id name avatar action upgrade order).1 =
        run rooms events) ∧
    (∀ name avatar action conn order, name ≠ "" →
      (handleWebSocket (run rooms events) id name avatar action (some conn) order).2 =
        [sendError { Conn := conn, Name := name, Avatar := avatar }
          (if action = "create" then "Room already exists" else "Game already started"),
          .close conn])

/-- Every room is held under its own identifier. -/
def WellKeyed (rooms : Registry) : Prop :=
  ∀ k r, rooms k = some r → r.ID = k

/-! ## Locking discipline

The same functions, seen as the sequence of the statements that take or release a mutex
or assign to the participant set, the host or the started flag of the room, in the order
in which one call executes them.  The branches are those of the functions above. -/

/-- The two mutexes: the global `roomsMutex` and the `Mutex` of the room at hand. -/
inductive Mutex where
  | roomsMutex
  | roomMutex
deriving DecidableEq

/-- The fields of a room the claims are about. -/
inductive Field where
  | Clients
  | Host
  | IsStarted
deriving DecidableEq

/-- A statement that matters for the locking discipline; `line` is its line in `main.go`. -/
inductive Sync where
  | lock (m : Mutex) (line : Nat)
  | unlock (m : Mutex) (line : Nat)
  | assign (f : Field) (line : Nat)
deriving DecidableEq

/-- The function `broadcastUserList`: it reads the room between `r.Mutex.Lock()` and the
deferred `r.Mutex.Unlock()`. -/
def broadcastUserListSync : List Sync :=
  [.lock .roomMutex 205, .unlock .roomMutex 206]

/-- The function `performDraw`: `r.IsStarted = true` between `r.Mutex.Lock()` and the
deferred `r.Mutex.Unlock()`. -/
def performDrawSync (r : Room) : List Sync :=
  if r.Clients.card < 2 then
    [.lock .roomMutex 226, .unlock .roomMutex 227]
  else
    [.lock .roomMutex 226, .assign .IsStarted 233, .unlock .roomMutex 227]

/-- The function `handleWebSocket` up to its read loop, a connection task. -/
def handleWebSocketSync (rooms : Registry) (roomID name action : String)
    (upgrade : Option Nat) : List Sync :=
  if name = "" ∨ roomID = "" then
    []
  else
    match upgrade with
    | none => []
    | some _ =>
      if action = "create" then
        match rooms roomID with
        | some _ => [.lock .roomsMutex 102, .unlock .roomsMutex 107]
        | none =>
          [.lock .roomsMutex 102, .assign .Host 115, .assign .Clients 133,
            .unlock .roomsMutex 135] ++ broadcastUserListSync
      else
        match rooms roomID with
        | none => [.lock .roomsMutex 102, .unlock .roomsMutex 119]
        | some room =>
          if room.IsStarted then
            [.lock .roomsMutex 102, .unlock .roomsMutex 125]
          else
            [.lock .roomsMutex 102, .assign .Clients 133, .unlock .roomsMutex 135] ++
              broadcastUserListSync

/-- One turn of the read loop of `handleWebSocket`, a connection task. -/
def handleMessageSync (rooms : Registry) (roomID : String) (client : Client)
    (msgType : String) : List Sync :=
  match rooms roomID with
  | none => []
  | some room =>
    if msgType = "START_GAME" then
      if some client = room.Host then performDrawSync room else []
    else []

/-- One turn of the event loop `Room.run`. -/
def Room.runSync (r : Room) (req : LoopRequest) (hostOrder : List Client) : List Sync :=
  match req with
  | .unregister client =>
    if client ∈ r.Clients then
      if some client = r.Host then
        match hostOrder.head? with
        | some _ =>
          [.lock .roomMutex 168, .assign .Clients 170, .assign .Host 175,
            .unlock .roomMutex 187] ++ broadcastUserListSync
        | none =>
          [.lock .roomMutex 168, .assign .Clients 170, .unlock .roomMutex 187] ++
            broadcastUserListSync
      else if (r.Clients.erase client).card = 0 then
        [.lock .roomMutex 168, .assign .Clients 170, .lock .roomsMutex 180,
          .unlock .roomsMutex 182, .unlock .roomMutex 183]
      else
        [.lock .roomMutex 168, .assign .Clients 170, .unlock .roomMutex 187] ++
          broadcastUserListSync
    else
      [.lock .roomMutex 168, .unlock .roomMutex 187] ++ broadcastUserListSync
  | .broadcast _ => [.lock .roomMutex 191, .unlock .roomMutex 195]

/-- The assignments of a sequence of statements that are executed while the mutex of the
room is not held; `held` tells whether it is held at the start. -/
def unguarded : Bool → List Sync → List Sync
  | _, [] => []
  | _, .lock .roomMutex _ :: rest => unguarded true rest
  | _, .unlock .roomMutex _ :: rest => unguarded false rest
  | held, .lock .roomsMutex _ :: rest => unguarded held rest
  | held, .unlock .roomsMutex _ :: rest => unguarded held rest
  | held, .assign f line :: rest =>
    if held then unguarded held rest else .assign f line :: unguarded held rest

/-! ## Sample rooms and runs -/

/-- A first client. -/
def alice : Client := { Conn := 1, Name := "Alice", Avatar := "elf" }

/-- A second client. -/
def bob : Client := { Conn := 2, Name := "Bob", Avatar := "deer" }

/-- A third client. -/
def carol : Client := { Conn := 3, Name := "Carol", Avatar := "star" }

/-- Alice creates room X42. -/
def aliceCreates : Event := .connect "X42" "Alice" "elf" "create" (some 1) [alice]

/-- Bob joins room X42. -/
def bobJoins (order : List Client) : Event := .connect "X42" "Bob" "deer" "join" (some 2) order

/-- The event loop of room X42 takes the unregister request of `c`. -/
def leaves (c : Client) (rest : List Client) : Event := .loop "X42" (.unregister c) rest rest

/-- Alice sends START_GAME in room X42. -/
def aliceStarts : Event := .message "X42" alice "START_GAME" [alice, bob] fun _ => 0

/-- Alice creates X42 and leaves it again. -/
def hostLeavesAlone : List Event := [aliceCreates, leaves alice []]

/-- Alice creates X42 and leaves, then Bob joins. -/
def joinAfterHostLeft : List Event := [aliceCreates, leaves alice [], bobJoins [bob]]

/-- Alice creates X42, Bob joins, Alice starts the draw, Alice leaves, Bob leaves. -/
def drawThenLeaveHostFirst : List Event :=
  [aliceCreates, bobJoins [alice, bob], aliceStarts, leaves alice [bob], leaves bob []]

/-- Alice creates X42, Bob joins, Alice starts the draw, Bob leaves, Alice leaves. -/
def drawThenLeaveHostLast : List Event :=
  [aliceCreates, bobJoins [alice, bob], aliceStarts, leaves bob [alice], leaves alice []]

/-- Alice creates X42, Bob joins, Alice starts the draw. -/
def gameStarted : List Event := [aliceCreates, bobJoins [alice, bob], aliceStarts]

/-- A started room with two participants, Alice being the host. -/
def startedRoom : Room :=
  { ID := "X42", Clients := {bob, alice}, Host := some alice, IsStarted := true }

/-! ## Lemmas on the shuffle -/

lemma swap_perm (clients : List Client) (i j : Nat) : (swap clients i j).Perm clients := by
  unfold swap
  split
  · rename_i a b ha hb
    obtain ⟨hi, rfl⟩ := List.getElem?_eq_some.mp ha
    obtain ⟨hj, rfl⟩ := List.getElem?_eq_some.mp hb
    rw [List.perm_iff_count]
    intro c
    rw [List.count_set _ _ _ _ (by simpa using hj), List.count_set _ _ _ _ hi]
    by_cases hij : i = j
    · subst hij
      simp only [List.getElem_set_self]
      have := List.count_pos_iff.mpr (List.getElem_mem hi)
      by_cases h1 : clients[i] = c
      · subst h1; simp
      · simp [h1]
    · rw [List.getElem_set_ne hij]
      have h1 := List.count_pos_iff.mpr (List.getElem_mem hi)
      have h2 := List.count_pos_iff.mpr (List.getElem_mem hj)
      by_cases hc1 : clients[i] = c <;> by_cases hc2 : clients[j] = c
      · rw [hc1] at h1
        simp only [hc1, hc2, beq_self_eq_true, if_true]
        omega
      · rw [hc1] at h1
        simp [hc1, hc2]
        omega
      · rw [hc2] at h2
        simp [hc1, hc2]
      · simp [hc1, hc2]
  · exact List.Perm.refl _

lemma shuffleLoop_perm (rnd : Nat → Nat) (i : Nat) (clients : List Client) :
    (shuffleLoop rnd i clients).Perm clients := by
  induction i generalizing clients with
  | zero => exact List.Perm.refl _
  | succ i ih => exact (ih _).trans (swap_perm _ _ _)

lemma shuffle_perm (rnd : Nat → Nat) (clients : List Client) :
    (shuffle rnd clients).Perm clients :=
  shuffleLoop_perm rnd _ clients

/-- The shuffled slice is again a visit of the participant set. -/
lemma shuffle_ranges {order : List Client} {s : Finset Client} (rnd : Nat → Nat)
    (h : Ranges order s) : Ranges (shuffle rnd order) s :=
  ⟨(shuffle_perm rnd order).nodup_iff.mpr h.1,
    fun c => ((shuffle_perm rnd order).mem_iff).trans (h.2 c)⟩

lemma Ranges.length_eq {order : List Client} {s : Finset Client} (h : Ranges order s) :
    order.length = s.card := by
  have : order.toFinset = s := by ext c; simp [h.2 c]
  rw [← this, List.toFinset_card_of_nodup h.1]

/-! ## Lemmas on the matching loop -/

lemma find?_of_unique {α : Type} (p : α → Bool) (l : List α) (a : α) (ha : a ∈ l)
    (hp : p a = true) (hu : ∀ x ∈ l, p x = true → x = a) : l.find? p = some a := by
  induction l with
  | nil => simp at ha
  | cons x xs ih =>
    by_cases hx : p x = true
    · rw [List.find?_cons_of_pos _ hx, hu x (List.mem_cons_self _ _) hx]
    · rw [List.find?_cons_of_neg _ hx]
      have hax : a ≠ x := fun h => hx (h ▸ hp)
      exact ih ((List.mem_cons.mp ha).resolve_left hax)
        (fun y hy => hu y (List.mem_cons_of_mem _ hy))

/-- The receiver of the client at index `j` is the client at index `(j+1) % n`. -/
lemma receiverOf_assignMatches {clients : List Client} (hnd : clients.Nodup) {j : Nat}
    {c : Client} (hc : clients[j]? = some c) :
    receiverOf (assignMatches clients) c = clients[(j + 1) % clients.length]? := by
  obtain ⟨hj, rfl⟩ := List.getElem?_eq_some.mp hc
  have hlt : (j + 1) % clients.length < clients.length := Nat.mod_lt _ (by omega)
  unfold receiverOf assignMatches
  rw [List.find?_map, find?_of_unique _ _ ⟨j, hj⟩ (List.mem_finRange _)]
  · simp [List.getElem?_eq_getElem hlt]
  · simp
  · intro x _ hx
    have hx1 : clients[x.val] = clients[j] := by simpa using hx
    exact Fin.ext ((hnd.getElem_inj_iff).mp hx1)

/-- Following the mapping `k` times from index `j` ends at index `(j+k) % n`. -/
lemma follow_assignMatches {clients : List Client} (hnd : clients.Nodup) {j : Nat}
    {c : Client} (hc : clients[j]? = some c) (k : Nat) :
    follow (assignMatches clients) k c = clients[(j + k) % clients.length]? := by
  have hj : j < clients.length := (List.getElem?_eq_some.mp hc).1
  induction k with
  | zero => simp [follow, Nat.mod_eq_of_lt hj, hc]
  | succ k ih =>
    have hlt : (j + k) % clients.length < clients.length := Nat.mod_lt _ (by omega)
    rw [follow, ih, List.getElem?_eq_getElem hlt, Option.some_bind,
      receiverOf_assignMatches hnd (List.getElem?_eq_getElem hlt)]
    congr 1
    rw [Nat.add_mod, Nat.mod_mod, ← Nat.add_mod, Nat.add_assoc]

lemma succ_mod_eq (j n : Nat) (h : j < n) :
    (j + 1) % n = if j + 1 = n then 0 else j + 1 := by
  split
  · rename_i h1
    rw [h1, Nat.mod_self]
  · exact Nat.mod_eq_of_lt (by omega)

lemma add_mod_eq_self_iff (j k n : Nat) (h : j < n) : (j + k) % n = j ↔ n ∣ k := by
  constructor
  · intro h1
    have h2 : (j + k) % n = (j + 0) % n := by rw [h1, Nat.add_zero, Nat.mod_eq_of_lt h]
    have h3 : k ≡ 0 [MOD n] := Nat.ModEq.add_left_cancel' j h2
    exact (Nat.modEq_zero_iff_dvd).mp h3
  · rintro ⟨m, rfl⟩
    rw [Nat.add_mul_mod_self_left, Nat.mod_eq_of_lt h]

lemma getElem?_inj_of_nodup {clients : List Client} (hnd : clients.Nodup) {a b : Nat}
    (ha : a < clients.length) (hb : b < clients.length) (h : clients[a]? = clients[b]?) :
    a = b := by
  rw [List.getElem?_eq_getElem ha, List.getElem?_eq_getElem hb] at h
  exact (hnd.getElem_inj_iff).mp (Option.some.inj h)

/-- The giver to receiver mapping of the matching loop over an ordering of at least two
participants: a bijection of the participant set without fixed point and with one orbit
of length `n`. -/
lemma assignMatches_single_cycle (r : Room) (clients : List Client)
    (hr : Ranges clients r.Clients) (hn : 2 ≤ r.Clients.card) :
    (∀ g ∈ r.Clients, ∃ v ∈ r.Clients, receiverOf (assignMatches clients) g = some v) ∧
    (∀ g ∈ r.Clients, ∀ g2 ∈ r.Clients,
      receiverOf (assignMatches clients) g = receiverOf (assignMatches clients) g2 → g = g2) ∧
    (∀ v ∈ r.Clients, ∃ g ∈ r.Clients, receiverOf (assignMatches clients) g = some v) ∧
    (∀ g ∈ r.Clients, receiverOf (assignMatches clients) g ≠ some g) ∧
    (∀ g ∈ r.Clients, ∀ k : Nat,
      follow (assignMatches clients) k g = some g ↔ r.Clients.card ∣ k) ∧
    (∀ g ∈ r.Clients, ∀ v ∈ r.Clients,
      ∃ k, k < r.Clients.card ∧ follow (assignMatches clients) k g = some v) := by
  obtain ⟨hnd, hmem⟩ := hr
  have hlen : clients.length = r.Clients.card := Ranges.length_eq ⟨hnd, hmem⟩
  have hidx : ∀ g ∈ r.Clients, ∃ j, j < clients.length ∧ clients[j]? = some g := by
    intro g hg
    obtain ⟨j, hj⟩ := List.mem_iff_getElem?.mp ((hmem g).mpr hg)
    exact ⟨j, (List.getElem?_eq_some.mp hj).1, hj⟩
  have hin : ∀ j, j < clients.length → ∃ v ∈ r.Clients, clients[j]? = some v := by
    intro j hj
    exact ⟨clients[j], (hmem _).mp (List.getElem_mem hj), List.getElem?_eq_getElem hj⟩
  have hpos : 0 < clients.length := by omega
  refine ⟨?_, ?_, ?_, ?_, ?_, ?_⟩
  · intro g hg
    obtain ⟨j, _, hj⟩ := hidx g hg
    obtain ⟨v, hv, hv2⟩ := hin ((j + 1) % clients.length) (Nat.mod_lt _ hpos)
    exact ⟨v, hv, by rw [receiverOf_assignMatches hnd hj, hv2]⟩
  · intro g hg g2 hg2 heq
    obtain ⟨j, hjl, hj⟩ := hidx g hg
    obtain ⟨j2, hjl2, hj2⟩ := hidx g2 hg2
    rw [receiverOf_assignMatches hnd hj, receiverOf_assignMatches hnd hj2] at heq
    have h1 := getElem?_inj_of_nodup hnd (Nat.mod_lt _ hpos) (Nat.mod_lt _ hpos) heq
    rw [succ_mod_eq j _ hjl, succ_mod_eq j2 _ hjl2] at h1
    have h2 : j = j2 := by
      split at h1 <;> split at h1 <;> omega
    subst h2
    exact Option.some.inj (hj.symm.trans hj2)
  · intro v hv
    obtain ⟨j, hjl, hj⟩ := hidx v hv
    obtain ⟨g, hg, hg2⟩ := hin (if j = 0 then clients.length - 1 else j - 1)
      (by split <;> omega)
    refine ⟨g, hg, ?_⟩
    rw [receiverOf_assignMatches hnd hg2, ← hj]
    congr 1
    rw [succ_mod_eq _ _ (by split <;> omega)]
    split <;> split <;> omega
  · intro g hg heq
    obtain ⟨j, hjl, hj⟩ := hidx g hg
    rw [receiverOf_assignMatches hnd hj, ← hj] at heq
    have h1 := getElem?_inj_of_nodup hnd (Nat.mod_lt _ hpos) hjl heq
    rw [succ_mod_eq j _ hjl] at h1
    split at h1 <;> omega
  · intro g hg k
    obtain ⟨j, hjl, hj⟩ := hidx g hg
    rw [follow_assignMatches hnd hj, ← hlen, ← add_mod_eq_self_iff j k _ hjl]
    constructor
    · intro h
      exact getElem?_inj_of_nodup hnd (Nat.mod_lt _ hpos) hjl (h.trans hj.symm)
    · intro h
      rw [h, hj]
  · intro g hg v hv
    obtain ⟨j, hjl, hj⟩ := hidx g hg
    obtain ⟨j2, hjl2, hj2⟩ := hidx v hv
    refine ⟨if j ≤ j2 then j2 - j else j2 + clients.length - j, by split <;> omega, ?_⟩
    rw [follow_assignMatches hnd hj, ← hj2]
    congr 1
    split
    · rw [show j + (j2 - j) = j2 by omega, Nat.mod_eq_of_lt hjl2]
    · rw [show j + (j2 + clients.length - j) = j2 + clients.length by omega,
        Nat.add_mod_right, Nat.mod_eq_of_lt hjl2]


lemma filter_of_unique {α : Type} (p : α → Bool) (l : List α) (a : α) (hnd : l.Nodup)
    (ha : a ∈ l) (hp : p a = true) (hu : ∀ x ∈ l, p x = true → x = a) :
    l.filter p = [a] := by
  induction l with
  | nil => simp at ha
  | cons x xs ih =>
    have hnd2 := List.nodup_cons.mp hnd
    by_cases hx : p x = true
    · have hxa : x = a := hu x (List.mem_cons_self _ _) hx
      subst hxa
      rw [List.filter_cons_of_pos hx]
      congr 1
      rw [List.filter_eq_nil_iff]
      intro y hy hpy
      exact hnd2.1 (hu y (List.mem_cons_of_mem _ hy) hpy ▸ hy)
    · rw [List.filter_cons_of_neg hx]
      have hax : a ≠ x := fun h => hx (h ▸ hp)
      exact ih hnd2.2 ((List.mem_cons.mp ha).resolve_left hax)
        (fun y hy => hu y (List.mem_cons_of_mem _ hy))

/-- Every match of the loop pairs a client of the slice with its receiver. -/
lemma mem_assignMatches {clients : List Client} (hnd : clients.Nodup) {pr : Client × Client}
    (h : pr ∈ assignMatches clients) :
    pr.1 ∈ clients ∧ pr.2 ∈ clients ∧ receiverOf (assignMatches clients) pr.1 = some pr.2 := by
  unfold assignMatches at h
  obtain ⟨i, _, rfl⟩ := List.mem_map.mp h
  have hlt : (i.val + 1) % clients.length < clients.length := Nat.mod_lt _ i.pos
  refine ⟨List.get_mem _ _ _, List.get_mem _ _ _, ?_⟩
  have hi : clients[i.val]? = some (clients.get i) := by
    rw [List.getElem?_eq_getElem i.isLt]; rfl
  rw [receiverOf_assignMatches hnd hi, List.getElem?_eq_getElem hlt]
  rfl

/-- The messages of the matching loop that are written to the client at index `j`: one,
naming the client at index `(j+1) % n`. -/
lemma sentTo_assignMatches {clients : List Client} (hnd : clients.Nodup) {p v : Client}
    (hv : receiverOf (assignMatches clients) p = some v) (hp : p ∈ clients) :
    sentTo ((assignMatches clients).map resultMsg) p = [matchResult p v] := by
  obtain ⟨j, hj⟩ := List.mem_iff_getElem?.mp hp
  obtain ⟨hjl, rfl⟩ := List.getElem?_eq_some.mp hj
  have hlt : (j + 1) % clients.length < clients.length := Nat.mod_lt _ (by omega)
  rw [receiverOf_assignMatches hnd hj, List.getElem?_eq_getElem hlt] at hv
  have hv2 := Option.some.inj hv
  subst hv2
  unfold sentTo assignMatches
  rw [List.map_map, List.filter_map,
    filter_of_unique _ _ ⟨j, hjl⟩ (List.nodup_finRange _) (List.mem_finRange _)]
  · rfl
  · simp [resultMsg, Effect.recipient]
  · intro x _ hx
    have hx1 : clients[x.val] = clients[j] := by
      simpa [resultMsg, Effect.recipient] using hx
    exact Fin.ext ((hnd.getElem_inj_iff).mp hx1)

lemma performDraw_of_two_le (r : Room) (order : List Client) (rnd : Nat → Nat)
    (hn : 2 ≤ r.Clients.card) :
    performDraw r order rnd =
      ({ r with IsStarted := true }, (assignMatches (shuffle rnd order)).map resultMsg) := by
  unfold performDraw
  rw [if_neg (by omega)]

lemma performDraw_of_lt_two (r : Room) (order : List Client) (rnd : Nat → Nat)
    (hn : r.Clients.card < 2) : performDraw r order rnd = (r, []) := by
  unfold performDraw
  rw [if_pos hn]

/-- The messages of a draw over at least two participants: as many as participants; to
each participant exactly one, a `MATCH_RESULT` naming the receiver of that participant,
who is the receiver of nobody else. -/
lemma draw_messages (r : Room) (order : List Client) (rnd : Nat → Nat)
    (ho : Ranges order r.Clients) (hn : 2 ≤ r.Clients.card) :
    ((assignMatches (shuffle rnd order)).map resultMsg).length = r.Clients.card ∧
    ∀ p ∈ r.Clients, ∃ v ∈ r.Clients,
      receiverOf (assignMatches (shuffle rnd order)) p = some v ∧ v ≠ p ∧
      sentTo ((assignMatches (shuffle rnd order)).map resultMsg) p = [matchResult p v] ∧
      ∀ q ∈ r.Clients, q ≠ p → receiverOf (assignMatches (shuffle rnd order)) q ≠ some v := by
  have hs := shuffle_ranges rnd ho
  have hcyc := assignMatches_single_cycle r _ hs hn
  refine ⟨?_, ?_⟩
  · simp [assignMatches, Ranges.length_eq hs]
  · intro p hp
    obtain ⟨v, hv, hpv⟩ := hcyc.1 p hp
    refine ⟨v, hv, hpv, ?_, sentTo_assignMatches hs.1 hpv ((hs.2 p).mpr hp), ?_⟩
    · rintro rfl
      exact hcyc.2.2.2.1 _ hp hpv
    · intro q hq hqp hqv
      exact hqp (hcyc.2.1 q hq p hp (hqv.trans hpv.symm))

/-! ## Lemmas on the registry and the handler -/

lemma Registry.set_same (rooms : Registry) (id : String) (room : Room) :
    (rooms.set id room) id = some room := by
  simp [Registry.set]

lemma Registry.set_other (rooms : Registry) {id k : String} (room : Room) (h : k ≠ id) :
    (rooms.set id room) k = rooms k := by
  simp [Registry.set, h]

lemma Registry.set_eq_self {rooms : Registry} {id : String} {room : Room}
    (h : rooms id = some room) : rooms.set id room = rooms := by
  funext k
  by_cases hk : k = id
  · subst hk; simp [Registry.set, h]
  · simp [Registry.set, hk]

lemma Registry.delete_other (rooms : Registry) {id k : String} (h : k ≠ id) :
    (rooms.delete id) k = rooms k := by
  simp [Registry.delete, h]

/-- A valid create request on an identifier that is taken. -/
lemma handleWebSocket_create_taken {rooms : Registry} {roomID name : String} {r : Room}
    (avatar : String) (conn : Nat) (order : List Client)
    (hname : name ≠ "") (hroom : roomID ≠ "") (hr : rooms roomID = some r) :
    handleWebSocket rooms roomID name avatar "create" (some conn) order =
      (rooms, [sendError { Conn := conn, Name := name, Avatar := avatar } "Room already exists",
        .close conn]) := by
  simp [handleWebSocket, hname, hroom, hr]

/-- A valid create request on an identifier that is free. -/
lemma handleWebSocket_create_free {rooms : Registry} {roomID name : String}
    (avatar : String) (conn : Nat) (order : List Client)
    (hname : name ≠ "") (hroom : roomID ≠ "") (hr : rooms roomID = none) :
    handleWebSocket rooms roomID name avatar "create" (some conn) order =
      attach (rooms.set roomID { newRoom roomID with
          Host := some { Conn := conn, Name := name, Avatar := avatar } })
        roomID { newRoom roomID with Host := some { Conn := conn, Name := name, Avatar := avatar } }
        { Conn := conn, Name := name, Avatar := avatar } order := by
  simp [handleWebSocket, hname, hroom, hr]

/-- A valid request with another action than create on a started room. -/
lemma handleWebSocket_join_started {rooms : Registry} {roomID name action : String} {r : Room}
    (avatar : String) (conn : Nat) (order : List Client)
    (hname : name ≠ "") (hroom : roomID ≠ "") (hact : action ≠ "create")
    (hr : rooms roomID = some r) (hs : r.IsStarted = true) :
    handleWebSocket rooms roomID name avatar action (some conn) order =
      (rooms, [sendError { Conn := conn, Name := name, Avatar := avatar } "Game already started",
        .close conn]) := by
  simp [handleWebSocket, hname, hroom, hact, hr, hs]

/-- A START_GAME message of the host of a started room leaves the registry as it is. -/
lemma handleMessage_started_registry {rooms : Registry} {roomID : String} {r : Room}
    (client : Client) (msgType : String) (order : List Client) (rnd : Nat → Nat)
    (hr : rooms roomID = some r) (hs : r.IsStarted = true) :
    (handleMessage rooms roomID client msgType order rnd).1 = rooms := by
  unfold handleMessage
  rw [hr]
  dsimp only
  split
  · split
    · have h1 : (performDraw r order rnd).1 = r := by
        unfold performDraw
        split
        · rfl
        · cases r; simp_all
      dsimp only
      rw [h1]
      exact Registry.set_eq_self hr
    · rfl
  · rfl

/-- A START_GAME message of the host runs `performDraw` and emits what it emits. -/
lemma handleMessage_host_effects {rooms : Registry} {roomID : String} {r : Room} {host : Client}
    (order : List Client) (rnd : Nat → Nat)
    (hr : rooms roomID = some r) (hh : r.Host = some host) :
    (handleMessage rooms roomID host "START_GAME" order rnd).2 = (performDraw r order rnd).2 := by
  simp [handleMessage, hr, hh]

lemma participantList_of_host (r : Room) (h : Client) (order : List Client)
    (hh : r.Host = some h) :
    participantList r order =
      order.map fun c => { Name := c.Name, Avatar := c.Avatar, IsHost := decide (c = h) } := by
  unfold participantList
  apply List.map_congr_left
  intro c _
  simp [hh]

lemma countP_isHost (h : Client) (order : List Client) :
    (order.map fun c => ({ Name := c.Name, Avatar := c.Avatar, IsHost := decide (c = h) } :
      Participant)).countP (fun e => e.IsHost) = order.count h := by
  induction order with
  | nil => rfl
  | cons c cs ih =>
    rw [List.map_cons, List.countP_cons, ih, List.count_cons]
    by_cases hc : c = h
    · simp [hc]
    · simp [hc]

/-! ## Rooms that can no longer change -/

lemma WellKeyed.set {rooms : Registry} (hw : WellKeyed rooms) {id : String} {room : Room}
    (h : room.ID = id) : WellKeyed (rooms.set id room) := by
  intro k r hk
  by_cases hki : k = id
  · subst hki
    rw [Registry.set_same] at hk
    cases hk
    exact h
  · rw [Registry.set_other _ _ hki] at hk
    exact hw k r hk

lemma WellKeyed.delete {rooms : Registry} (hw : WellKeyed rooms) (id : String) :
    WellKeyed (rooms.delete id) := by
  intro k r hk
  by_cases hki : k = id
  · simp [Registry.delete, hki] at hk
  · rw [Registry.delete_other _ hki] at hk
    exact hw k r hk

lemma performDraw_ID (r : Room) (order : List Client) (rnd : Nat → Nat) :
    (performDraw r order rnd).1.ID = r.ID := by
  unfold performDraw
  split <;> rfl

/-- Every event keeps every room under its own identifier. -/
lemma step_wellKeyed (rooms : Registry) (e : Event) (hw : WellKeyed rooms) :
    WellKeyed (step rooms e).1 := by
  cases e with
  | connect roomID name avatar action upgrade order =>
    simp only [step, handleWebSocket]
    split
    · exact hw
    · split
      · exact hw
      · split
        · split
          · exact hw
          · dsimp only [attach]
            refine WellKeyed.set (WellKeyed.set hw ?_) ?_ <;> rfl
        · split
          · exact hw
          · rename_i room hroom
            split
            · exact hw
            · dsimp only [attach]
              refine WellKeyed.set hw ?_
              exact hw roomID room hroom
  | message roomID client msgType order rnd =>
    simp only [step, handleMessage]
    split
    · exact hw
    · rename_i room hroom
      split
      · split
        · exact hw.set ((performDraw_ID _ _ _).trans (hw _ _ hroom))
        · exact hw
      · exact hw
  | loop roomID req hostOrder listOrder =>
    simp only [step]
    split
    · exact hw
    · rename_i r hr
      have hid := hw _ _ hr
      cases req with
      | unregister client =>
        simp only [Room.run]
        split
        · split
          · exact WellKeyed.set hw hid
          · split
            · dsimp only
              refine WellKeyed.delete (WellKeyed.set hw ?_) _
              exact hid
            · exact WellKeyed.set hw hid
        · exact hw
      | broadcast m => exact hw

/-- A room that is started and has no participants is left as it is by every event. -/
lemma step_dead_room (rooms : Registry) (e : Event) (hw : WellKeyed rooms) {id : String}
    {r : Room} (hr : rooms id = some r) (hc : r.Clients = ∅) (hs : r.IsStarted = true) :
    (step rooms e).1 id = some r := by
  cases e with
  | connect roomID name avatar action upgrade order =>
    simp only [step, handleWebSocket]
    split
    · exact hr
    · split
      · exact hr
      · by_cases hid : roomID = id
        · subst hid
          simp only [hr, hs, if_true]
          split <;> exact hr
        · have hne : id ≠ roomID := fun h => hid h.symm
          split
          · split
            · exact hr
            · simp only [attach]
              rw [Registry.set_other _ _ hne, Registry.set_other _ _ hne, hr]
          · split
            · exact hr
            · split
              · exact hr
              · simp only [attach]
                rw [Registry.set_other _ _ hne, hr]
  | message roomID client msgType order rnd =>
    simp only [step, handleMessage]
    by_cases hid : roomID = id
    · subst hid
      rw [hr]
      dsimp only
      split
      · split
        · rw [performDraw_of_lt_two _ _ _ (by simp [hc])]
          exact Registry.set_same _ _ _
        · exact hr
      · exact hr
    · have hne : id ≠ roomID := fun h => hid h.symm
      split
      · exact hr
      · split
        · split
          · dsimp only
            rw [Registry.set_other _ _ hne, hr]
          · exact hr
        · exact hr
  | loop roomID req hostOrder listOrder =>
    simp only [step]
    by_cases hid : roomID = id
    · subst hid
      rw [hr]
      cases req with
      | unregister client => simp [Room.run, hc, hr]
      | broadcast m => exact hr
    · have hne : id ≠ roomID := fun h => hid h.symm
      split
      · exact hr
      · rename_i r2 hr2
        have hid2 : r2.ID = roomID := hw _ _ hr2
        cases req with
        | unregister client =>
          simp only [Room.run]
          split
          · split
            · dsimp only
              rw [Registry.set_other _ _ hne, hr]
            · split
              · dsimp only
                rw [hid2, Registry.delete_other _ hne, Registry.set_other _ _ hne, hr]
              · dsimp only
                rw [Registry.set_other _ _ hne, hr]
          · exact hr
        | broadcast m => exact hr

lemma emptyRegistry_wellKeyed : WellKeyed emptyRegistry := by
  intro k r h
  simp [emptyRegistry] at h

lemma run_wellKeyed (events : List Event) {rooms : Registry} (hw : WellKeyed rooms) :
    WellKeyed (run rooms events) := by
  induction events generalizing rooms with
  | nil => exact hw
  | cons e es ih => exact ih (step_wellKeyed rooms e hw)

/-- A room that is started and has no participants is left as it is by every sequence of
events. -/
lemma run_dead_room (events : List Event) {rooms : Registry} (hw : WellKeyed rooms)
    {id : String} {r : Room} (hr : rooms id = some r) (hc : r.Clients = ∅)
    (hs : r.IsStarted = true) : (run rooms events) id = some r := by
  induction events generalizing rooms with
  | nil => exact hr
  | cons e es ih => exact ih (step_wellKeyed rooms e hw) (step_dead_room rooms e hw hr hc hs)

/-- Every connection request on the identifier of a room that is started is turned away
with the registry as it was. -/
lemma handleWebSocket_started_registry {rooms : Registry} {roomID : String} {r : Room}
    (name avatar action : String) (upgrade : Option Nat) (order : List Client)
    (hr : rooms roomID = some r) (hs : r.IsStarted = true) :
    (handleWebSocket rooms roomID name avatar action upgrade order).1 = rooms := by
  unfold handleWebSocket
  split
  · rfl
  · split
    · rfl
    · simp [hr, hs]
      split <;> rfl

/-- What a connection request that passed the parameter check and the upgrade gets on the
identifier of a room that is started. -/
lemma handleWebSocket_started_effects {rooms : Registry} {roomID name : String} {r : Room}
    (avatar action : String) (conn : Nat) (order : List Client)
    (hname : name ≠ "") (hroom : roomID ≠ "") (hr : rooms roomID = some r)
    (hs : r.IsStarted = true) :
    (handleWebSocket rooms roomID name avatar action (some conn) order).2 =
      [sendError { Conn := conn, Name := name, Avatar := avatar }
        (if action = "create" then "Room already exists" else "Game already started"),
        .close conn] := by
  by_cases hact : action = "create"
  · subst hact
    rw [handleWebSocket_create_taken avatar conn order hname hroom hr]
    simp
  · rw [handleWebSocket_join_started avatar conn order hname hroom hact hr hs]
    simp [hact]

/-- The identifier of a held room that is started and has no participants is lost. -/
lemma unusable_of_dead_room {rooms : Registry} (hw : WellKeyed rooms) {id : String} {r : Room}
    (hid : id ≠ "") (hr : rooms id = some r) (hc : r.Clients = ∅) (hs : r.IsStarted = true) :
    Unusable rooms id := by
  intro events
  have h := run_dead_room events hw hr hc hs
  exact ⟨h.trans hr.symm,
    fun name avatar action upgrade order =>
      handleWebSocket_started_registry name avatar action upgrade order h hs,
    fun name avatar action conn order hname =>
      handleWebSocket_started_effects avatar action conn order hname hid h hs⟩

/-! ## The claims of the specification -/

/-- C1. For every room with at least two participants: whatever the visit of the client
map and the random source, the slice `performDraw` shuffles is an ordering of the
participant set and its messages are those of the matching loop over that slice; and for
every ordering `clients` of the participant set, the giver to receiver mapping of the
matching loop, `clients[i] -> clients[(i+1) % n]`, sends participants to participants,
is injective and surjective on the participant set, has no fixed point, and is one cycle
of length `n`: following it `k` times from a participant leads back to that participant
exactly when `n` divides `k`, and every participant is reached from every other in fewer
than `n` steps. -/
theorem performDraw_mapping_single_cycle (r : Room) (clients : List Client)
    (hr : Ranges clients r.Clients) (hn : 2 ≤ r.Clients.card) :
    (∀ (order : List Client) (rnd : Nat → Nat), Ranges order r.Clients →
      Ranges (shuffle rnd order) r.Clients ∧
      (performDraw r order rnd).2 = (assignMatches (shuffle rnd order)).map resultMsg) ∧
    (∀ g ∈ r.Clients, ∃ v ∈ r.Clients, receiverOf (assignMatches clients) g = some v) ∧
    (∀ g ∈ r.Clients, ∀ g2 ∈ r.Clients,
      receiverOf (assignMatches clients) g = receiverOf (assignMatches clients) g2 → g = g2) ∧
    (∀ v ∈ r.Clients, ∃ g ∈ r.Clients, receiverOf (assignMatches clients) g = some v) ∧
    (∀ g ∈ r.Clients, receiverOf (assignMatches clients) g ≠ some g) ∧
    (∀ g ∈ r.Clients, ∀ k : Nat,
      follow (assignMatches clients) k g = some g ↔ r.Clients.card ∣ k) ∧
    (∀ g ∈ r.Clients, ∀ v ∈ r.Clients,
      ∃ k, k < r.Clients.card ∧ follow (assignMatches clients) k g = some v) :=
  ⟨fun order rnd ho =>
      ⟨shuffle_ranges rnd ho, by rw [performDraw_of_two_le r order rnd hn]⟩,
    assignMatches_single_cycle r clients hr hn⟩

/-- Witness of C1: the started room of Alice and Bob with the slice `[bob, alice]`; Alice
is not her own receiver. -/
theorem performDraw_mapping_single_cycle_witness :
    Ranges [bob, alice] startedRoom.Clients ∧ 2 ≤ startedRoom.Clients.card ∧
    receiverOf (assignMatches [bob, alice]) alice ≠ some alice :=
  ⟨by decide, by decide,
    (performDraw_mapping_single_cycle startedRoom [bob, alice] (by decide)
      (by decide)).2.2.2.2.1 alice (by decide)⟩

/-- C7. For every room with at least two participants, every visit `order` of its client
map and every random source of the shuffle, `performDraw` emits as many effects as there
are participants; each is a `MATCH_RESULT` written to a participant and naming the receiver
of that participant; the effects written to a participant `p` are exactly one such message,
whose receiver is the receiver of no other participant; and nothing is queued on a
broadcast channel. -/
theorem performDraw_private (r : Room) (order : List Client) (rnd : Nat → Nat)
    (ho : Ranges order r.Clients) (hn : 2 ≤ r.Clients.card) :
    (performDraw r order rnd).2.length = r.Clients.card ∧
    (∀ e ∈ (performDraw r order rnd).2, ∃ p ∈ r.Clients, ∃ v ∈ r.Clients,
      receiverOf (assignMatches (shuffle rnd order)) p = some v ∧ e = matchResult p v) ∧
    (∀ p ∈ r.Clients, ∃ v ∈ r.Clients,
      receiverOf (assignMatches (shuffle rnd order)) p = some v ∧
      sentTo (performDraw r order rnd).2 p = [matchResult p v] ∧
      ∀ q ∈ r.Clients, q ≠ p → receiverOf (assignMatches (shuffle rnd order)) q ≠ some v) ∧
    (∀ room m, Effect.broadcast room m ∉ (performDraw r order rnd).2) := by
  have hs := shuffle_ranges rnd ho
  have hm := draw_messages r order rnd ho hn
  have hall : ∀ e ∈ (performDraw r order rnd).2, ∃ p ∈ r.Clients, ∃ v ∈ r.Clients,
      receiverOf (assignMatches (shuffle rnd order)) p = some v ∧ e = matchResult p v := by
    intro e he
    rw [performDraw_of_two_le r order rnd hn] at he
    obtain ⟨pr, hpr, rfl⟩ := List.mem_map.mp he
    obtain ⟨h1, h2, h3⟩ := mem_assignMatches hs.1 hpr
    exact ⟨pr.1, (hs.2 _).mp h1, pr.2, (hs.2 _).mp h2, h3, rfl⟩
  refine ⟨?_, hall, ?_, ?_⟩
  · rw [performDraw_of_two_le r order rnd hn]
    exact hm.1
  · intro p hp
    obtain ⟨v, hv, h1, _, h2, h3⟩ := hm.2 p hp
    exact ⟨v, hv, h1, by rw [performDraw_of_two_le r order rnd hn]; exact h2, h3⟩
  · intro room m hmem
    obtain ⟨p, _, v, _, _, he⟩ := hall _ hmem
    simp [matchResult] at he

/-- Witness of C7: the draw of Alice and Bob sends Alice one message, naming Bob. -/
theorem performDraw_private_witness :
    Ranges [alice, bob] startedRoom.Clients ∧ 2 ≤ startedRoom.Clients.card ∧
    (performDraw startedRoom [alice, bob] (fun _ => 0)).2.length = startedRoom.Clients.card :=
  ⟨by decide, by decide,
    (performDraw_private startedRoom [alice, bob] (fun _ => 0) (by decide) (by decide)).1⟩

/-- C6. A create request that passed the parameter check and the upgrade: on an identifier
that is not in the registry it adds a room whose host is the creator, whose participant
set is the creator alone and which is not started, and it touches no other entry; on an
identifier that is in the registry it is answered with the error "Room already exists",
the connection is closed and the registry is returned as it was. -/
theorem create_adds_room_or_conflicts (rooms : Registry) (roomID name avatar : String)
    (conn : Nat) (order : List Client) (hname : name ≠ "") (hroom : roomID ≠ "") :
    (rooms roomID = none →
      (handleWebSocket rooms roomID name avatar "create" (some conn) order).1 roomID =
        some { ID := roomID, Clients := {{ Conn := conn, Name := name, Avatar := avatar }},
               Host := some { Conn := conn, Name := name, Avatar := avatar },
               IsStarted := false } ∧
      ∀ k, k ≠ roomID →
        (handleWebSocket rooms roomID name avatar "create" (some conn) order).1 k = rooms k) ∧
    (∀ r, rooms roomID = some r →
      handleWebSocket rooms roomID name avatar "create" (some conn) order =
        (rooms, [sendError { Conn := conn, Name := name, Avatar := avatar } "Room already exists",
          .close conn])) := by
  refine ⟨fun hfree => ?_, fun r hr => handleWebSocket_create_taken avatar conn order hname hroom hr⟩
  rw [handleWebSocket_create_free avatar conn order hname hroom hfree]
  refine ⟨?_, fun k hk => ?_⟩
  · simp [attach, Registry.set, newRoom]
  · simp [attach, Registry.set, hk]

/-- Witness of C6: Alice creates X42 in the empty registry. -/
theorem create_adds_room_or_conflicts_witness :
    "Alice" ≠ "" ∧ "X42" ≠ "" ∧ emptyRegistry "X42" = none ∧
    (handleWebSocket emptyRegistry "X42" "Alice" "elf" "create" (some 1) [alice]).1 "X42" =
      some { ID := "X42", Clients := {alice}, Host := some alice, IsStarted := false } :=
  ⟨by decide, by decide, rfl,
    ((create_adds_room_or_conflicts emptyRegistry "X42" "Alice" "elf" 1 [alice]
      (by decide) (by decide)).1 rfl).1⟩

/-- C5. A request that passed the parameter check and the upgrade, with any action other
than create, on the identifier of a room with `IsStarted = true`, is answered with the
error "Game already started", the connection is closed, and the registry is returned as
it was, so the room keeps its participant set, host and started flag. -/
theorem join_started_room_rejected (rooms : Registry) (roomID name avatar action : String)
    (conn : Nat) (order : List Client) (r : Room)
    (hname : name ≠ "") (hroom : roomID ≠ "") (hact : action ≠ "create")
    (hr : rooms roomID = some r) (hs : r.IsStarted = true) :
    handleWebSocket rooms roomID name avatar action (some conn) order =
      (rooms, [sendError { Conn := conn, Name := name, Avatar := avatar } "Game already started",
        .close conn]) ∧
    (handleWebSocket rooms roomID name avatar action (some conn) order).1 roomID = some r := by
  have h := handleWebSocket_join_started avatar conn order hname hroom hact hr hs
  exact ⟨h, by rw [h]; exact hr⟩

/-- Witness of C5: Carol tries to join the started room of Alice and Bob. -/
theorem join_started_room_rejected_witness :
    (emptyRegistry.set "X42" startedRoom) "X42" = some startedRoom ∧
    startedRoom.IsStarted = true ∧
    (handleWebSocket (emptyRegistry.set "X42" startedRoom) "X42" "Carol" "star" "join" (some 3)
      [alice, bob, carol]).2 = [sendError carol "Game already started", .close 3] :=
  ⟨by decide, rfl,
    congrArg Prod.snd (join_started_room_rejected (emptyRegistry.set "X42" startedRoom) "X42"
      "Carol" "star" "join" 3 [alice, bob, carol] startedRoom (by decide) (by decide)
      (by decide) (by decide) rfl).1⟩

/-- C8. Host departure.  Let a room be held in the registry, with its host among its
participants and with at least one other participant.  When the event loop takes the
unregister request of the host, then whatever the visits of the client map are: the new
host is one of the remaining participants; the room stays in the registry with the
remaining participants and is otherwise as before; and the user list queued on the
broadcast channel has one entry per remaining participant, exactly one of them, the entry
of the new host, with `isHost` set. -/
theorem host_departure_hands_over (rooms : Registry) (key : String) (r : Room) (host : Client)
    (hostOrder listOrder : List Client)
    (hk : rooms key = some r) (hh : r.Host = some host) (hm : host ∈ r.Clients)
    (hne : (r.Clients.erase host).Nonempty)
    (h1 : Ranges hostOrder (r.Clients.erase host))
    (h2 : Ranges listOrder (r.Clients.erase host)) :
    ∃ newHost ∈ r.Clients.erase host,
      (step rooms (.loop key (.unregister host) hostOrder listOrder)).1 key =
        some { r with Clients := r.Clients.erase host, Host := some newHost } ∧
      (step rooms (.loop key (.unregister host) hostOrder listOrder)).2 =
        [.broadcast r.ID ⟨"UPDATE_PARTICIPANTS", .participants (listOrder.map fun c =>
          { Name := c.Name, Avatar := c.Avatar, IsHost := decide (c = newHost) })⟩] ∧
      (listOrder.map fun c => (⟨c.Name, c.Avatar, decide (c = newHost)⟩ : Participant)).length = (r.Clients.erase host).card ∧
      (listOrder.map fun c => (⟨c.Name, c.Avatar, decide (c = newHost)⟩ : Participant)).countP (fun e => e.IsHost) = 1 := by
  obtain ⟨x, hx⟩ := hne
  have hxo : x ∈ hostOrder := (h1.2 x).mpr hx
  obtain ⟨newHost, rest, hcons⟩ : ∃ a l, hostOrder = a :: l := by
    cases hostOrder with
    | nil => simp at hxo
    | cons a l => exact ⟨a, l, rfl⟩
  have hnew : newHost ∈ r.Clients.erase host := (h1.2 newHost).mp (by simp [hcons])
  refine ⟨newHost, hnew, ?_, ?_, ?_, ?_⟩
  · simp [step, hk, Room.run, hm, hh, hcons, Registry.set]
  · simp only [step, hk, Room.run, hm, hh, hcons, if_true, List.head?_cons, broadcastUserList]
    rw [participantList_of_host _ newHost _ rfl]
  · rw [List.length_map, Ranges.length_eq h2]
  · rw [countP_isHost]
    exact List.count_eq_one_of_mem h2.1 ((h2.2 newHost).mpr hnew)

/-- Witness of C8: Alice, host of the room of Alice and Bob, leaves. -/
theorem host_departure_hands_over_witness :
    ∃ newHost ∈ startedRoom.Clients.erase alice,
      (step (emptyRegistry.set "X42" startedRoom)
        (.loop "X42" (.unregister alice) [bob] [bob])).1 "X42" =
        some { startedRoom with Clients := startedRoom.Clients.erase alice, Host := some newHost } ∧
      (step (emptyRegistry.set "X42" startedRoom)
        (.loop "X42" (.unregister alice) [bob] [bob])).2 =
        [.broadcast startedRoom.ID ⟨"UPDATE_PARTICIPANTS", .participants ([bob].map fun c =>
          { Name := c.Name, Avatar := c.Avatar, IsHost := decide (c = newHost) })⟩] ∧
      ([bob].map fun c => (⟨c.Name, c.Avatar, decide (c = newHost)⟩ : Participant)).length =
        (startedRoom.Clients.erase alice).card ∧
      ([bob].map fun c => (⟨c.Name, c.Avatar, decide (c = newHost)⟩ : Participant)).countP (fun e => e.IsHost) = 1 :=
  host_departure_hands_over (emptyRegistry.set "X42" startedRoom) "X42" startedRoom alice
    [bob] [bob] (by decide) rfl (by decide) (by decide) (by decide) (by decide)

/-- C2, evaluated where the code departs from it.  Alice creates room X42 and is its only
participant; the event loop takes her unregister request.  The room is still in the
registry, with no participant and Alice as host, and a create request of Carol on X42 is
answered with "Room already exists". -/
theorem last_participant_host_leaves_room_registered :
    Reachable (run emptyRegistry [aliceCreates]) ∧
    (run emptyRegistry [aliceCreates]) "X42" =
      some { ID := "X42", Clients := {alice}, Host := some alice, IsStarted := false } ∧
    Admissible [aliceCreates] (run emptyRegistry [aliceCreates]) (leaves alice []) ∧
    (run emptyRegistry hostLeavesAlone) "X42" =
      some { ID := "X42", Clients := ∅, Host := some alice, IsStarted := false } ∧
    (handleWebSocket (run emptyRegistry hostLeavesAlone) "X42" "Carol" "star" "create" (some 3)
      [carol]).2 = [sendError carol "Room already exists", .close 3] :=
  ⟨⟨_, by decide, rfl⟩, by decide, by decide, by decide, by decide⟩

/-- C3, evaluated where the code departs from it.  Alice creates room X42 and leaves, then
Bob joins: the reachable registry holds X42 with the participant set of Bob alone and the
host Alice, who is not in it, and the user list broadcast on the join has no entry with
`isHost` set. -/
theorem join_after_host_left_has_no_host :
    Reachable (run emptyRegistry joinAfterHostLeft) ∧
    (run emptyRegistry joinAfterHostLeft) "X42" =
      some { ID := "X42", Clients := {bob}, Host := some alice, IsStarted := false } ∧
    alice ∉ ({bob} : Finset Client) ∧
    (step (run emptyRegistry hostLeavesAlone) (bobJoins [bob])).2 =
      [.broadcast "X42" ⟨"UPDATE_PARTICIPANTS", .participants [⟨"Bob", "deer", false⟩]⟩] ∧
    (participantList { ID := "X42", Clients := {bob}, Host := some alice, IsStarted := false }
      [bob]).countP (fun e => e.IsHost) = 0 :=
  ⟨⟨_, by decide, rfl⟩, by decide, by decide, by decide, by decide⟩

/-- C4 fails as stated.  After Alice created X42, Bob joined and Alice started the draw,
the room is started with host Alice; a second START_GAME of Alice can occur and sends a
`MATCH_RESULT` to Bob and to Alice again, as the first one did. -/
theorem second_start_draws_again :
    Reachable (run emptyRegistry gameStarted) ∧
    (run emptyRegistry gameStarted) "X42" = some startedRoom ∧
    startedRoom.IsStarted = true ∧ startedRoom.Host = some alice ∧
    Admissible gameStarted (run emptyRegistry gameStarted) aliceStarts ∧
    (step (run emptyRegistry [aliceCreates, bobJoins [alice, bob]]) aliceStarts).2 =
      [matchResult bob alice, matchResult alice bob] ∧
    (step (run emptyRegistry gameStarted) aliceStarts).2 =
      [matchResult bob alice, matchResult alice bob] :=
  ⟨⟨_, by decide, rfl⟩, by decide, rfl, rfl, by decide, by decide, by decide⟩

/-- C4 as amended.  `performDraw` does not test `IsStarted`.  For every room held in the
registry with `IsStarted = true`, a START_GAME message of its host leaves the registry,
and so the room, as it is; with fewer than two participants it emits nothing; with at
least two it runs a draw again and emits as many effects as there are participants, to
each participant exactly one, a `MATCH_RESULT` naming another participant. -/
theorem start_on_started_room_redraws (rooms : Registry) (roomID : String) (r : Room)
    (host : Client) (order : List Client) (rnd : Nat → Nat)
    (hr : rooms roomID = some r) (hs : r.IsStarted = true) (hh : r.Host = some host)
    (ho : Ranges order r.Clients) :
    (handleMessage rooms roomID host "START_GAME" order rnd).1 = rooms ∧
    (r.Clients.card < 2 → (handleMessage rooms roomID host "START_GAME" order rnd).2 = []) ∧
    (2 ≤ r.Clients.card →
      (handleMessage rooms roomID host "START_GAME" order rnd).2.length = r.Clients.card ∧
      ∀ p ∈ r.Clients, ∃ v ∈ r.Clients, v ≠ p ∧
        sentTo (handleMessage rooms roomID host "START_GAME" order rnd).2 p =
          [matchResult p v]) := by
  rw [handleMessage_host_effects order rnd hr hh]
  refine ⟨handleMessage_started_registry host _ order rnd hr hs, fun hlt => ?_, fun hn => ?_⟩
  · rw [performDraw_of_lt_two r order rnd hlt]
  · rw [performDraw_of_two_le r order rnd hn]
    have hm := draw_messages r order rnd ho hn
    refine ⟨hm.1, fun p hp => ?_⟩
    obtain ⟨v, hv, _, hne, hsent, _⟩ := hm.2 p hp
    exact ⟨v, hv, hne, hsent⟩

/-- Witness of C4 as amended: Alice sends START_GAME in the started room of Alice and
Bob. -/
theorem start_on_started_room_redraws_witness :
    (emptyRegistry.set "X42" startedRoom) "X42" = some startedRoom ∧
    startedRoom.IsStarted = true ∧ startedRoom.Host = some alice ∧
    Ranges [alice, bob] startedRoom.Clients ∧
    (handleMessage (emptyRegistry.set "X42" startedRoom) "X42" alice "START_GAME" [alice, bob]
      (fun _ => 0)).1 = emptyRegistry.set "X42" startedRoom :=
  ⟨by decide, rfl, rfl, by decide,
    (start_on_started_room_redraws (emptyRegistry.set "X42" startedRoom) "X42" startedRoom alice
      [alice, bob] (fun _ => 0) (by decide) rfl rfl (by decide)).1⟩

/-- C10. Alice creates X42, Bob joins, Alice starts the draw, and both leave, in either
order.  Both runs reach a registry that still holds X42, with no participant and
`IsStarted = true`, and in which the identifier X42 is lost: after any further events the
entry is the same, every connection request on X42 leaves the registry as it is, and a
request that passed the parameter check and the upgrade is answered with "Room already
exists" for a create and with "Game already started" otherwise. -/
theorem room_left_after_draw_is_unusable :
    (Reachable (run emptyRegistry drawThenLeaveHostFirst) ∧
      (run emptyRegistry drawThenLeaveHostFirst) "X42" =
        some { ID := "X42", Clients := ∅, Host := some bob, IsStarted := true } ∧
      Unusable (run emptyRegistry drawThenLeaveHostFirst) "X42") ∧
    (Reachable (run emptyRegistry drawThenLeaveHostLast) ∧
      (run emptyRegistry drawThenLeaveHostLast) "X42" =
        some { ID := "X42", Clients := ∅, Host := some alice, IsStarted := true } ∧
      Unusable (run emptyRegistry drawThenLeaveHostLast) "X42") := by
  have h1 : (run emptyRegistry drawThenLeaveHostFirst) "X42" =
      some { ID := "X42", Clients := ∅, Host := some bob, IsStarted := true } := by decide
  have h2 : (run emptyRegistry drawThenLeaveHostLast) "X42" =
      some { ID := "X42", Clients := ∅, Host := some alice, IsStarted := true } := by decide
  exact ⟨⟨⟨_, by decide, rfl⟩, h1,
      unusable_of_dead_room (run_wellKeyed _ emptyRegistry_wellKeyed) (by decide) h1 rfl rfl⟩,
    ⟨⟨_, by decide, rfl⟩, h2,
      unusable_of_dead_room (run_wellKeyed _ emptyRegistry_wellKeyed) (by decide) h2 rfl rfl⟩⟩

/-- C9, evaluated where the code departs from it.  The event loop, and the read loop of
the connection task through `performDraw`, assign to the fields of the room only while
they hold the mutex of the room.  The connection task does not when it attaches a
client: when Bob joins the room X42 that Alice created, `handleWebSocket` executes
`room.Clients[client] = true` of line 133 holding `roomsMutex` alone, and when Alice
creates the room it assigns `room.Host` and `room.Clients` in the same way. -/
theorem handleWebSocket_assigns_without_room_mutex :
    (∀ (r : Room) (req : LoopRequest) (hostOrder : List Client),
      unguarded false (Room.runSync r req hostOrder) = []) ∧
    (∀ (rooms : Registry) (roomID : String) (client : Client) (msgType : String),
      unguarded false (handleMessageSync rooms roomID client msgType) = []) ∧
    (run emptyRegistry [aliceCreates]) "X42" =
      some { ID := "X42", Clients := {alice}, Host := some alice, IsStarted := false } ∧
    unguarded false
      (handleWebSocketSync (run emptyRegistry [aliceCreates]) "X42" "Bob" "join" (some 2)) =
      [.assign .Clients 133] ∧
    unguarded false (handleWebSocketSync emptyRegistry "X42" "Alice" "create" (some 1)) =
      [.assign .Host 115, .assign .Clients 133] := by
  have hdraw : ∀ r : Room, unguarded false (performDrawSync r) = [] := by
    intro r
    unfold performDrawSync
    split <;> simp [unguarded]
  refine ⟨?_, ?_, by decide, by decide, by decide⟩
  · intro r req hostOrder
    cases req with
    | unregister client =>
      simp only [Room.runSync]
      split_ifs
      · cases hostOrder.head? <;> simp [unguarded, broadcastUserListSync]
      · simp [unguarded]
      · simp [unguarded, broadcastUserListSync]
      · simp [unguarded, broadcastUserListSync]
    | broadcast m => simp [Room.runSync, unguarded]
  · intro rooms roomID client msgType
    unfold handleMessageSync
    split
    · rfl
    · split_ifs
      · exact hdraw _
      · rfl
      · rfl

end SecretSanta
